import Mathlib

/-!
Shallow embedding of `src/validate.js` (an AMD module exporting a `Validator`
object with a rule registry and a `validate` aggregator), together with proofs
about the claims of its specification.

Modelling conventions:
* JavaScript runtime values are the inductive type `JSValue`; JavaScript
  numbers (IEEE doubles) are modelled as `JSNum`, a rational together with the
  special values NaN and plus/minus infinity.  Rounding and overflow of doubles
  are not modelled; no claim depends on them.
* `Debug.log` calls are pure diagnostics with no observable effect and are
  dropped (a comment marks each spot).
* Thrown exceptions (e.g. calling a non-function, or calling `.match` on a
  non-string) are modelled as `Except.error ()`.
* The regular-expression engine (a JS builtin) and the `Sequencer` field
  lookup used by `confirmEmail` (an external collaborator not part of the
  module) are abstracted as an environment `Env`.
-/

namespace ValidateJs

/-- A JavaScript number: NaN, plus/minus infinity, or a finite value
(modelled as a rational; IEEE rounding is not modelled). -/
inductive JSNum where
  | nan : JSNum
  | posInf : JSNum
  | negInf : JSNum
  | fin : ℚ → JSNum
deriving DecidableEq

/-- JS `isNaN` on a number value. -/
def JSNum.isNaN : JSNum → Bool
  | .nan => true
  | _ => false

/-- A number is finite when it is neither NaN nor an infinity. -/
def JSNum.isFinite : JSNum → Bool
  | .fin _ => true
  | _ => false

/-- JS `===` on two numbers: NaN is equal to nothing, finite values compare
as rationals. -/
def JSNum.strictEq : JSNum → JSNum → Bool
  | .posInf, .posInf => true
  | .negInf, .negInf => true
  | .fin a, .fin b => a == b
  | _, _ => false

/-- JS numeric `<`: any comparison with NaN is false. -/
def JSNum.lt : JSNum → JSNum → Bool
  | .nan, _ => false
  | _, .nan => false
  | .negInf, .negInf => false
  | .negInf, _ => true
  | .fin _, .negInf => false
  | .fin a, .fin b => decide (a < b)
  | .fin _, .posInf => true
  | .posInf, _ => false

/-- JS numeric `>`, i.e. `<` with the operands swapped. -/
def JSNum.gt (a b : JSNum) : Bool := JSNum.lt b a

/-- A JavaScript runtime value as far as the module can observe it.
Array and plain-object values carry their elements / own enumerable
properties; other host objects do not occur in the module. -/
inductive JSValue where
  | undefined : JSValue
  | null : JSValue
  | bool : Bool → JSValue
  | num : JSNum → JSValue
  | str : String → JSValue
  | arr : List JSValue → JSValue
  | obj : List (String × JSValue) → JSValue

/-- JS `typeof`.  Note that `typeof` yields `"object"` for `null`, arrays and
plain objects, and never yields the string `"array"`. -/
def jsTypeof : JSValue → String
  | .undefined => "undefined"
  | .null => "object"
  | .bool _ => "boolean"
  | .num _ => "number"
  | .str _ => "string"
  | .arr _ => "object"
  | .obj _ => "object"

/-- JS strict equality `===`.  Primitives compare by value (NaN unequal to
itself); two array/object values are distinct references in every comparison
the module performs, so those cases are `false`. -/
def jsStrictEq : JSValue → JSValue → Bool
  | .undefined, .undefined => true
  | .null, .null => true
  | .bool a, .bool b => a == b
  | .num a, .num b => JSNum.strictEq a b
  | .str a, .str b => a == b
  | _, _ => false

/-- JS truthiness of a value, as used by `if (max && ...)`. -/
def truthy : JSValue → Bool
  | .undefined => false
  | .null => false
  | .bool b => b
  | .num .nan => false
  | .num (.fin q) => decide (q ≠ 0)
  | .num _ => true
  | .str s => decide (s ≠ "")
  | .arr _ => true
  | .obj _ => true

/-- Underscore's `_.isEmpty`: null and undefined are empty; arrays and strings
are empty when their length is 0; otherwise a value is empty when it has no
own enumerable keys (primitives have none). -/
def uIsEmpty : JSValue → Bool
  | .null => true
  | .undefined => true
  | .arr xs => xs.isEmpty
  | .str s => s.isEmpty
  | .obj fields => fields.isEmpty
  | .bool _ => true
  | .num _ => true

/-- The `.length` property access: a number for arrays and strings,
`undefined` for everything else the module could touch. -/
def jsLengthProp : JSValue → JSValue
  | .arr xs => .num (.fin xs.length)
  | .str s => .num (.fin s.length)
  | _ => .undefined

/-- Modelled from the spec and ECMAScript `ToString` on numbers: integers
print in decimal; NaN and the infinities print their names.  Printing of
non-integral values (exact decimal expansion, e-notation) is not modelled —
the placeholder below is never produced from a numeric string literal, so the
round trips the claims rely on are unaffected. -/
def numToString : JSNum → String
  | .nan => "NaN"
  | .posInf => "Infinity"
  | .negInf => "-Infinity"
  | .fin q => if q.den = 1 then toString q.num else "<nonIntegralNumber>"

mutual

/-- ECMAScript `ToString` of a value: arrays join their elements with commas
(with `null`/`undefined` elements printing as empty), plain objects print as
the usual object tag. -/
def jsToString : JSValue → String
  | .undefined => "undefined"
  | .null => "null"
  | .bool b => if b then "true" else "false"
  | .num n => numToString n
  | .str s => s
  | .arr xs => String.intercalate "," (arrElems xs)
  | .obj _ => "[object Object]"

/-- String forms of array elements for `Array.prototype.toString`. -/
def arrElems : List JSValue → List String
  | [] => []
  | .undefined :: rest => "" :: arrElems rest
  | .null :: rest => "" :: arrElems rest
  | v :: rest => jsToString v :: arrElems rest

end

/-- The whitespace characters recognized by JS string trimming (the common
ASCII ones; the exotic Unicode spaces are not modelled). -/
def isWsChar (c : Char) : Bool :=
  c = ' ' || c = '\t' || c = '\n' || c = '\r' || c = '\x0b' || c = '\x0c'

/-- Strip leading and trailing whitespace from a character list. -/
def trimWs (cs : List Char) : List Char :=
  ((cs.dropWhile isWsChar).reverse.dropWhile isWsChar).reverse

/-- Numeric value of a list of decimal digit characters. -/
def digitsToNat (ds : List Char) : ℕ :=
  ds.foldl (fun acc c => 10 * acc + (c.toNat - '0'.toNat)) 0

/-- Value of an integer-part / fraction-part digit pair, e.g. `12.34`. -/
def decToQ (intDs fracDs : List Char) : ℚ :=
  (digitsToNat intDs : ℚ) + (digitsToNat fracDs : ℚ) / 10 ^ fracDs.length

/-- Consume an optional exponent part (`e`/`E`, optional sign, digits) and
scale the mantissa accordingly; if no well-formed exponent follows, consume
nothing. -/
def parseExpPart (q : ℚ) (cs : List Char) : ℚ × List Char :=
  match cs with
  | 'e' :: rest | 'E' :: rest =>
      let (negExp, rest2) :=
        match rest with
        | '+' :: r => (false, r)
        | '-' :: r => (true, r)
        | r => (false, r)
      let ds := rest2.takeWhile Char.isDigit
      if ds = [] then (q, cs)
      else ((if negExp then q / 10 ^ digitsToNat ds else q * 10 ^ digitsToNat ds),
            rest2.drop ds.length)
  | _ => (q, cs)

/-- Consume an unsigned decimal mantissa: digits, optionally with a decimal
point; at least one digit must be present on one side of the point. -/
def parseMantissa (cs : List Char) : Option (ℚ × List Char) :=
  let intDs := cs.takeWhile Char.isDigit
  let rest := cs.drop intDs.length
  match rest with
  | '.' :: rest2 =>
      let fracDs := rest2.takeWhile Char.isDigit
      if intDs = [] ∧ fracDs = [] then none
      else some (decToQ intDs fracDs, rest2.drop fracDs.length)
  | _ => if intDs = [] then none else some ((digitsToNat intDs : ℚ), rest)

/-- Consume an optional leading sign, reporting whether it was `-`. -/
def parseSign : List Char → Bool × List Char
  | '+' :: r => (false, r)
  | '-' :: r => (true, r)
  | cs => (false, cs)

/-- Negation of a JS number. -/
def JSNum.negate : JSNum → JSNum
  | .nan => .nan
  | .posInf => .negInf
  | .negInf => .posInf
  | .fin q => .fin (-q)

/-- Consume a leading unsigned decimal literal: `Infinity`, or a mantissa
with an optional exponent. -/
def parseUnsigned (cs : List Char) : Option (JSNum × List Char) :=
  if cs.take 8 = "Infinity".toList then some (.posInf, cs.drop 8)
  else
    match parseMantissa cs with
    | none => none
    | some (q, rest) =>
        let p := parseExpPart q rest
        some (.fin p.1, p.2)

/-- Consume a leading `StrDecimalLiteral` (optional sign, then `Infinity` or
a mantissa with optional exponent), returning the value and the rest of the
input, or `none` when no literal starts the input. -/
def parseDecLead (cs : List Char) : Option (JSNum × List Char) :=
  let sp := parseSign cs
  match parseUnsigned sp.2 with
  | none => none
  | some (n, rest) => some ((if sp.1 then n.negate else n), rest)

/-- ECMAScript `parseFloat` on a string: skip surrounding whitespace and take
the longest leading decimal literal; NaN when there is none.  (JS only skips
leading whitespace, but trailing whitespace never extends a literal, so
trimming both ends is observationally the same.) -/
def parseFloatStr (s : String) : JSNum :=
  match parseDecLead (trimWs s.toList) with
  | some (n, _) => n
  | none => .nan

/-- Numeric value of a list of hexadecimal digit characters. -/
def hexListVal (ds : List Char) : ℕ :=
  ds.foldl (fun acc c => 16 * acc + c.toNat % 16) 0

/-- Whether a character is a hexadecimal digit. -/
def isHexDigitChar (c : Char) : Bool :=
  c.isDigit || ('a' ≤ c && c ≤ 'f') || ('A' ≤ c && c ≤ 'F')

/-- Full-string numeric literal parse, as used by ECMAScript `ToNumber` on a
trimmed non-empty string: an unsigned hex literal, or a signed decimal
literal consuming the entire input; `none` when the string is not a complete
literal. -/
def fullNumParse (t : List Char) : Option JSNum :=
  match t with
  | '0' :: x :: rest =>
      if x = 'x' ∨ x = 'X' then
        if rest ≠ [] ∧ rest.all isHexDigitChar then some (.fin (hexListVal rest))
        else none
      else
        match parseDecLead t with
        | some (n, []) => some n
        | _ => none
  | _ =>
      match parseDecLead t with
      | some (n, []) => some n
      | _ => none

/-- ECMAScript `ToNumber` on a string: trim whitespace, the empty string is
`0`, otherwise the value of the complete literal, or NaN. -/
def toNumberStr (s : String) : JSNum :=
  let t := trimWs s.toList
  if t = [] then .fin 0 else (fullNumParse t).getD .nan

/-- ECMAScript `ToNumber` of a value; arrays and objects convert through
their string form. -/
def jsToNumber : JSValue → JSNum
  | .undefined => .nan
  | .null => .fin 0
  | .bool b => .fin (if b then 1 else 0)
  | .num n => n
  | .str s => toNumberStr s
  | .arr xs => toNumberStr (jsToString (.arr xs))
  | .obj f => toNumberStr (jsToString (.obj f))

/-- JS global `parseFloat` on a value: numbers round-trip through their
string form unchanged; anything else converts to a string first. -/
def jsParseFloat : JSValue → JSNum
  | .num n => n
  | v => parseFloatStr (jsToString v)

/-- JS global `isFinite`: convert to a number, then test finiteness. -/
def jsIsFinite (v : JSValue) : Bool := (jsToNumber v).isFinite

/-- The external collaborators of the module, abstracted.
`firstMatch input pattern` models the JS builtin `input.match(pattern)`:
`none` for a null result, `some m` when there are matches and `m` is the
first matched substring (`matches[0]`; with the `g` flag the array holds all
matches, but its first entry is still the first matched substring).
`findField` is modelled from the spec: the field-lookup collaborator
(`Sequencer.$container.find` in the source, defined outside this module)
returns the referenced field's current string value, or `none` when the
lookup result is falsy ("cannot find the field"). -/
structure Env where
  firstMatch : String → JSValue → Option String
  findField : JSValue → Option String

/-- `CONSTANTS.MAX_SHORT_TEXT_LENGTH` from the source. -/
def MAX_SHORT_TEXT_LENGTH : ℕ := 128

/-- `CONSTANTS.MAX_TEXTAREA_LENGTH` from the source. -/
def MAX_TEXTAREA_LENGTH : ℕ := 20000

/-- `CONSTANTS.EMAIL_REGEX`, carried as its source text (the engine that
interprets it is abstract, so only the pattern's identity matters). -/
def EMAIL_REGEX : JSValue :=
  .str "^([a-zA-Z0-9_\\-\\.\\+])+\\@(([a-zA-Z0-9\\-])+\\.)+([a-zA-Z0-9]\x7b2,5\x7d)"

/-- `CONSTANTS.URL_REGEX`, carried as its source text (abbreviated host-TLD
alternation; like the email pattern it is interpreted only by the abstract
engine). -/
def URL_REGEX : JSValue :=
  .str "(([a-z]+:\\/\\/)?(([a-z0-9\\-]+\\.)+([a-z]\x7b2,\x7d|com|net|org|...))(:[0-9]\x7b1,5\x7d)?...)"

/-- `validators.isRequired`: always passes when `validationRequired` is
strictly `false`; otherwise fails on `undefined`, `null`, the empty string,
and on empty objects/arrays via the `typeof input === 'object'` branch.  The
final `typeof input === 'array'` branch is kept although `typeof` never
yields `"array"`. -/
def isRequired (input validationRequired : JSValue) : Bool :=
  if jsStrictEq validationRequired (.bool false) then true
  else if (jsTypeof input == "undefined") || jsStrictEq input .null
          || jsStrictEq input (.str "") then false
  else if (jsTypeof input == "object") && uIsEmpty input then false
  else if (jsTypeof input == "array")
          && jsStrictEq (jsLengthProp input) (.num (.fin 0)) then false
  else true

/-- `validators.isNumeric`: `!isNaN(parseFloat(input)) && isFinite(input)`. -/
def isNumeric (input : JSValue) : Bool :=
  !(jsParseFloat input).isNaN && jsIsFinite input

/-- `validators.hasMinLength`: non-strings fail (with a logged diagnostic,
dropped here); strings fail when `min` is truthy and the length is below it. -/
def hasMinLength (input minv : JSValue) : Bool :=
  match input with
  | .str s =>
      if truthy minv && JSNum.lt (.fin s.length) (jsToNumber minv) then false
      else true
  | _ => false

/-- `validators.hasMaxLength`: non-strings fail (with a logged diagnostic,
dropped here); strings fail when `max` is truthy and the length exceeds it. -/
def hasMaxLength (input maxv : JSValue) : Bool :=
  match input with
  | .str s =>
      if truthy maxv && JSNum.gt (.fin s.length) (jsToNumber maxv) then false
      else true
  | _ => false

/-- `validators.matchesRegularExpression`: `input.match(regex)` followed by
`matches && matches[0] === input`.  Calling `.match` on a non-string value
throws, modelled as `Except.error`. -/
def matchesRegularExpression (env : Env) (input regex : JSValue) :
    Except Unit Bool :=
  match input with
  | .str s =>
      match env.firstMatch s regex with
      | some m => .ok (jsStrictEq (.str m) (.str s))
      | none => .ok false
  | _ => .error ()

/-- `validators.isEmail`: delegates to `matchesRegularExpression` with the
fixed email pattern. -/
def isEmail (env : Env) (input : JSValue) : Except Unit Bool :=
  matchesRegularExpression env input EMAIL_REGEX

/-- `validators.isUrl`: delegates to `matchesRegularExpression` with the
fixed URL pattern. -/
def isUrl (env : Env) (input : JSValue) : Except Unit Bool :=
  matchesRegularExpression env input URL_REGEX

/-- `validators.confirmEmail`: look up the original email field through the
collaborator; when the lookup result is falsy, log (dropped) and pass;
otherwise pass exactly when `input === originalEmail`. -/
def confirmEmail (env : Env) (input selector : JSValue) : Except Unit Bool :=
  match env.findField selector with
  | none => .ok true
  | some originalEmail => .ok (jsStrictEq input (.str originalEmail))

/-- The `validators` registry object: name-to-function lookup, `none` when
the property access yields `undefined`.  Every validator receives
`(input, ruleVal)`; those that declare fewer parameters ignore the rest, as
in JS. -/
def validators : String → Option (Env → JSValue → JSValue → Except Unit Bool)
  | "isRequired" => some fun _ input arg => .ok (isRequired input arg)
  | "isNumeric" => some fun _ input _ => .ok (isNumeric input)
  | "hasMinLength" => some fun _ input arg => .ok (hasMinLength input arg)
  | "hasMaxLength" => some fun _ input arg => .ok (hasMaxLength input arg)
  | "matchesRegularExpression" =>
      some fun env input arg => matchesRegularExpression env input arg
  | "isEmail" => some fun env input _ => isEmail env input
  | "isUrl" => some fun env input _ => isUrl env input
  | "confirmEmail" => some fun env input arg => confirmEmail env input arg
  | _ => none

/-- The `_.each` loop body of `Validator.validate`, accumulating the
`failures` array.  When the looked-up validator is not a function the source
logs "not recognized" and then still calls it, which throws a TypeError —
modelled as `Except.error ()`.  A validator that returns `false` has its rule
name pushed onto `failures`. -/
def validateLoop (env : Env) (input : JSValue) :
    List (String × JSValue) → List String → Except Unit (List String)
  | [], failures => .ok failures
  | (ruleType, ruleVal) :: rest, failures =>
      match validators ruleType with
      | none => .error ()
      | some f =>
          match f env input ruleVal with
          | .error e => .error e
          | .ok b =>
              validateLoop env input rest
                (if b then failures else failures ++ [ruleType])

/-- `Validator.validate`: run every rule in `options`, then return the
failures array when `returnSpecifics === true` and failures is non-empty,
`false` when it is non-empty otherwise, and `true` when it is empty. -/
def validate (env : Env) (input : JSValue) (options : List (String × JSValue))
    (returnSpecifics : JSValue) : Except Unit JSValue :=
  match validateLoop env input options [] with
  | .error e => .error e
  | .ok failures =>
      if failures.length > 0 then
        if jsStrictEq returnSpecifics (.bool true) then
          .ok (.arr (failures.map .str))
        else .ok (.bool false)
      else .ok (.bool true)

/-- An environment whose regex engine matches nothing and whose field lookup
finds nothing. -/
def env0 : Env := ⟨fun _ _ => none, fun _ => none⟩

/-- An environment whose field lookup always finds a field whose current
value is `"a@b.com"`. -/
def env1 : Env := ⟨fun _ _ => none, fun _ => some "a@b.com"⟩

/-- Whether the character sequence `abc` occurs in a string's characters. -/
def containsAbc : List Char → Bool
  | 'a' :: 'b' :: 'c' :: _ => true
  | _ :: rest => containsAbc rest
  | [] => false

/-- A concrete environment whose regex engine implements the single pattern
`/abc/`: the first matched substring is `"abc"` whenever it occurs in the
input. -/
def envAbc : Env :=
  ⟨fun s _ => if containsAbc s.toList then some "abc" else none,
   fun _ => none⟩

/-- Whether a string, ignoring surrounding whitespace, is a complete numeric
literal denoting a finite value. -/
def finiteFullParse (u : String) : Bool :=
  match fullNumParse (trimWs u.toList) with
  | some n => n.isFinite
  | none => false

/-- Modelled from the spec: "pass iff input parses to a finite floating-point
number" — a number input must be finite, and any other input's string form
must be a complete numeric literal denoting a finite value. -/
def parsesToFiniteNumber : JSValue → Bool
  | .num n => n.isFinite
  | v => finiteFullParse (jsToString v)

/-- A rule entry of an options mapping is well-behaved for a given input when
its key is a known rule name and the predicate call returns a value (rather
than throwing). -/
def ruleOk (env : Env) (input : JSValue) (p : String × JSValue) : Prop :=
  ∃ f b, validators p.1 = some f ∧ f env input p.2 = Except.ok b

/-- Modelled from the spec: "collects the names of rules that failed" — the
keys of the options whose predicate returns `false`. -/
def failedRules (env : Env) (input : JSValue)
    (options : List (String × JSValue)) : List String :=
  options.filterMap fun p =>
    match validators p.1 with
    | some f =>
        match f env input p.2 with
        | .ok false => some p.1
        | _ => none
    | none => none

/-! ## Theorems about the claims -/

/-- Claim C1: the claim says an unknown rule key is logged, skipped and never
causes a thrown error, with the remaining rules still evaluated.  The code
logs but then still invokes the looked-up non-function, so evaluation throws
before the following known rule is reached: the spec records the intended
behaviour and the code is missing the skip. -/
theorem claim_C1_unknown_rule_throws :
    validate env0 (.str "x")
      [("bogusRule", .bool true), ("isRequired", .bool true)]
      (.bool false) = Except.error () := rfl

/-- Claim C3, counterexample: at `max = 0` the guard `max && length > max` is
falsy, so a string of length 1 passes although its length exceeds `max`; the
claimed equivalence fails for `max = 0`. -/
theorem claim_C3_counterexample :
    ¬ ((hasMaxLength (.str "a") (.num (.fin 0)) = false) ↔ 0 < "a".length) := by
  decide

/-- Claim C3, as amended: for every integer `max ≥ 1`, `hasMaxLength` on a
string returns `false` exactly when the string's length exceeds `max` (for
`max = 0` the truthiness guard skips the comparison and every string
passes). -/
theorem claim_C3_hasMaxLength (s : String) (m : ℕ) (hm : 1 ≤ m) :
    hasMaxLength (.str s) (.num (.fin (m : ℚ))) = false ↔ m < s.length := by
  have hmq : (0 : ℚ) < (m : ℚ) := by exact_mod_cast hm
  simp [hasMaxLength, truthy, jsToNumber, JSNum.gt, JSNum.lt, hmq.ne']

/-- Witness for claim C3's amended theorem at `s = "ab"`, `max = 1`. -/
theorem claim_C3_hasMaxLength_witness :
    hasMaxLength (.str "ab") (.num (.fin ((1 : ℕ) : ℚ))) = false :=
  (claim_C3_hasMaxLength "ab" 1 (le_refl 1)).mpr (by decide)

/-- Claim C4: when the field lookup cannot find the referenced field
`confirmEmail` passes (fail-open, after logging); when it finds the field,
`confirmEmail` passes exactly when the input is strictly equal to the field's
current value. -/
theorem claim_C4_confirmEmail (env : Env) (input selector : JSValue) :
    (env.findField selector = none →
      confirmEmail env input selector = Except.ok true) ∧
    (∀ v, env.findField selector = some v →
      (confirmEmail env input selector = Except.ok true ↔
        jsStrictEq input (.str v) = true)) := by
  constructor
  · intro h; simp [confirmEmail, h]
  · intro v h; simp [confirmEmail, h]

/-- Witness for claim C4: a lookup that finds nothing passes, and a lookup
that finds the matching value passes. -/
theorem claim_C4_confirmEmail_witness :
    confirmEmail env0 (.str "a") (.str "#email") = Except.ok true ∧
    confirmEmail env1 (.str "a@b.com") (.str "#email") = Except.ok true := by
  refine ⟨(claim_C4_confirmEmail env0 (.str "a") (.str "#email")).1 rfl, ?_⟩
  exact ((claim_C4_confirmEmail env1 (.str "a@b.com") (.str "#email")).2
    "a@b.com" rfl).mpr (by decide)

/-- Claim C6: for string inputs, `matchesRegularExpression` passes exactly
when the match succeeds and the first matched substring equals the whole
input; in particular, with an engine for `/abc/`, `"abc"` passes and the
strictly partial match on `"abcd"` fails. -/
theorem claim_C6_matchesRegularExpression :
    (∀ (env : Env) (s : String) (pat : JSValue),
      matchesRegularExpression env (.str s) pat = Except.ok true ↔
        env.firstMatch s pat = some s) ∧
    matchesRegularExpression envAbc (.str "abc") (.str "abc") =
      Except.ok true ∧
    matchesRegularExpression envAbc (.str "abcd") (.str "abc") =
      Except.ok false := by
  refine ⟨?_, rfl, rfl⟩
  intro env s pat
  cases h : env.firstMatch s pat with
  | none => simp [matchesRegularExpression, h]
  | some m =>
      simp [matchesRegularExpression, h, jsStrictEq]

/-- Claim C7: on any non-string input, both length rules log a diagnostic and
return `false` for every argument value; both are total functions of the
input (no exception is modelled or possible in their code path). -/
theorem claim_C7_lengthRules_nonString (input arg : JSValue)
    (h : jsTypeof input ≠ "string") :
    hasMinLength input arg = false ∧ hasMaxLength input arg = false := by
  cases input <;> simp_all [jsTypeof, hasMinLength, hasMaxLength]

/-- Witness for claim C7 at a numeric input. -/
theorem claim_C7_witness :
    hasMinLength (.num (.fin 5)) (.bool true) = false ∧
    hasMaxLength (.num (.fin 5)) (.bool true) = false :=
  claim_C7_lengthRules_nonString (.num (.fin 5)) (.bool true) (by decide)

/-- Claim C9: `typeof` never yields `"array"`, so the array branch of
`isRequired` is unreachable; an empty array is nevertheless rejected by the
preceding branch, being of `typeof` `"object"` and empty. -/
theorem claim_C9_emptyArray :
    (∀ v : JSValue, jsTypeof v ≠ "array") ∧
    jsTypeof (.arr []) = "object" ∧
    uIsEmpty (.arr []) = true ∧
    (∀ vreq : JSValue, jsStrictEq vreq (.bool false) = false →
      isRequired (.arr []) vreq = false) := by
  refine ⟨?_, rfl, rfl, ?_⟩
  · intro v; cases v <;> simp [jsTypeof]
  · intro vreq h
    simp only [isRequired, h]
    simp [jsTypeof, jsStrictEq, uIsEmpty]

/-- Witness for claim C9 at `validationRequired = true`. -/
theorem claim_C9_witness : isRequired (.arr []) (.bool true) = false :=
  claim_C9_emptyArray.2.2.2 (.bool true) rfl

/-- Claim C5: when `validationRequired` is strictly `false`, `isRequired`
always passes; otherwise it fails exactly on `undefined`, `null`, the empty
string, an empty object and an empty array, and passes on every other value;
with the four particular instances of the spec. -/
theorem claim_C5_isRequired :
    (∀ input vreq : JSValue,
      (jsStrictEq vreq (.bool false) = true → isRequired input vreq = true) ∧
      (jsStrictEq vreq (.bool false) = false →
        (isRequired input vreq = false ↔
          (input = .undefined ∨ input = .null ∨ input = .str "" ∨
           input = .obj [] ∨ input = .arr [])))) ∧
    isRequired .undefined (.bool true) = false ∧
    isRequired .undefined (.bool false) = true ∧
    isRequired (.str "") (.bool true) = false ∧
    isRequired (.str "x") (.bool true) = true := by
  refine ⟨?_, rfl, rfl, rfl, rfl⟩
  intro input vreq
  constructor
  · intro h; simp [isRequired, h]
  · intro h
    simp only [isRequired, h]
    cases input with
    | undefined => simp [jsTypeof]
    | null => simp [jsTypeof, jsStrictEq]
    | bool b => simp [jsTypeof, jsStrictEq]
    | num n => simp [jsTypeof, jsStrictEq]
    | str s =>
        by_cases hs : s = "" <;>
          simp [jsTypeof, jsStrictEq, uIsEmpty, hs]
    | arr xs =>
        cases xs <;> simp [jsTypeof, jsStrictEq, uIsEmpty, jsLengthProp]
    | obj fields =>
        cases fields <;> simp [jsTypeof, jsStrictEq, uIsEmpty, jsLengthProp]

/-- Witness for claim C5: an empty object is rejected when requiredness is
demanded by a truthy non-boolean argument. -/
theorem claim_C5_witness : isRequired (.obj []) (.num (.fin 1)) = false :=
  ((claim_C5_isRequired.1 (.obj []) (.num (.fin 1))).2 rfl).mpr
    (Or.inr (Or.inr (Or.inr (Or.inl rfl))))

/-- The `_.each` loop of `validate` returns the accumulated failures followed
by the failed rule names of the remaining options, provided every option's
rule is known and its predicate returns a value. -/
theorem validateLoop_append (env : Env) (input : JSValue)
    (options : List (String × JSValue)) :
    ∀ acc : List String, (∀ p ∈ options, ruleOk env input p) →
      validateLoop env input options acc =
        Except.ok (acc ++ failedRules env input options) := by
  induction options with
  | nil => intro acc _; simp [validateLoop, failedRules]
  | cons hd tl ih =>
      obtain ⟨rt, rv⟩ := hd
      intro acc hall
      obtain ⟨f, b, hf, hb⟩ := hall (rt, rv) (by simp)
      dsimp only at hf hb
      have htl : ∀ p ∈ tl, ruleOk env input p := fun p hp =>
        hall p (List.mem_cons_of_mem _ hp)
      cases b with
      | false =>
          have hstep : validateLoop env input ((rt, rv) :: tl) acc =
              validateLoop env input tl (acc ++ [rt]) := by
            simp [validateLoop, hf, hb]
          rw [hstep, ih (acc ++ [rt]) htl]
          simp [failedRules, List.filterMap_cons, hf, hb]
      | true =>
          have hstep : validateLoop env input ((rt, rv) :: tl) acc =
              validateLoop env input tl acc := by
            simp [validateLoop, hf, hb]
          rw [hstep, ih acc htl]
          simp [failedRules, List.filterMap_cons, hf, hb]

/-- Claim C2: when every key of the options is a known rule and every
predicate call returns a value, `validate` returns `true` when no rule
failed, and otherwise the failed rule names when `returnSpecifics` is
strictly `true` and `false` otherwise; in particular the empty options always
validate to `true`. -/
theorem claim_C2_validate :
    (∀ (env : Env) (input : JSValue) (options : List (String × JSValue))
        (returnSpecifics : JSValue),
      (∀ p ∈ options, ruleOk env input p) →
      validate env input options returnSpecifics =
        Except.ok
          (if failedRules env input options = [] then .bool true
           else if jsStrictEq returnSpecifics (.bool true) then
             .arr ((failedRules env input options).map .str)
           else .bool false)) ∧
    (∀ (env : Env) (input : JSValue) (returnSpecifics : JSValue),
      validate env input [] returnSpecifics = Except.ok (.bool true)) := by
  constructor
  · intro env input options rs hall
    unfold validate
    rw [validateLoop_append env input options [] hall]
    by_cases hf : failedRules env input options = []
    · simp [hf]
    · by_cases hrs : jsStrictEq rs (.bool true) = true <;>
        simp [hf, hrs, List.length_pos]
  · intro env input rs; rfl

/-- Witness for claim C2 at a single passing rule. -/
theorem claim_C2_witness :
    validate env0 (.str "a") [("isRequired", .bool true)] (.bool false) =
      Except.ok (.bool true) := by
  have hall : ∀ p ∈ [("isRequired", JSValue.bool true)],
      ruleOk env0 (.str "a") p := by
    intro p hp
    simp only [List.mem_singleton] at hp
    subst hp
    exact ⟨_, true, rfl, rfl⟩
  have h := claim_C2_validate.1 env0 (.str "a")
    [("isRequired", .bool true)] (.bool false) hall
  simpa using h

/-- Every name in the failures accumulated by the loop is either in the
initial accumulator or a key of the processed options. -/
theorem validateLoop_mem (env : Env) (input : JSValue)
    (options : List (String × JSValue)) :
    ∀ (acc fs : List String),
      validateLoop env input options acc = Except.ok fs →
      ∀ n ∈ fs, n ∈ acc ∨ n ∈ options.map Prod.fst := by
  induction options with
  | nil =>
      intro acc fs h n hn
      simp only [validateLoop, Except.ok.injEq] at h
      subst h
      exact Or.inl hn
  | cons hd tl ih =>
      obtain ⟨rt, rv⟩ := hd
      intro acc fs h n hn
      simp only [validateLoop] at h
      split at h
      · exact absurd h (by simp)
      · split at h
        · exact absurd h (by simp)
        · rename_i b heq
          rcases ih _ fs h n hn with hacc | htl
          · by_cases hb : b = true
            · rw [if_pos hb] at hacc
              exact Or.inl hacc
            · rw [if_neg hb] at hacc
              rcases List.mem_append.mp hacc with h1 | h2
              · exact Or.inl h1
              · simp only [List.mem_singleton] at h2
                exact Or.inr (by simp [h2])
          · exact Or.inr (by simp [htl])

/-- Claim C10: with `returnSpecifics` strictly `true`, whenever `validate`
returns a result it is never `false` and never an empty array: it is either
`true` or a non-empty array of rule names drawn from the keys of the
options. -/
theorem claim_C10_validate_specifics (env : Env) (input : JSValue)
    (options : List (String × JSValue)) (r : JSValue)
    (h : validate env input options (.bool true) = Except.ok r) :
    r ≠ .bool false ∧ r ≠ .arr [] ∧
    (r = .bool true ∨
      ∃ fs : List String, fs ≠ [] ∧ r = .arr (fs.map .str) ∧
        ∀ n ∈ fs, n ∈ options.map Prod.fst) := by
  unfold validate at h
  split at h
  · exact absurd h (by simp)
  · rename_i failures hloop
    by_cases hlen : failures.length > 0
    · rw [if_pos hlen] at h
      have hrs : jsStrictEq (.bool true) (.bool true) = true := rfl
      rw [hrs, if_pos rfl] at h
      have hr : r = .arr (failures.map .str) := by
        simpa using h.symm
      have hfs : failures ≠ [] := by
        intro hc; rw [hc] at hlen; simp at hlen
      subst hr
      refine ⟨by simp, ?_, Or.inr ⟨failures, hfs, rfl, ?_⟩⟩
      · simp [hfs]
      · intro n hn
        rcases validateLoop_mem env input options [] failures hloop n hn with
          h0 | hk
        · simp at h0
        · exact hk
    · rw [if_neg hlen] at h
      have hr : r = .bool true := by simpa using h.symm
      subst hr
      exact ⟨by simp, by simp, Or.inl rfl⟩

/-- Witness for claim C10: a failing required rule yields the non-empty
failures array, which is neither `false` nor empty. -/
theorem claim_C10_witness :
    (JSValue.arr [JSValue.str "isRequired"] ≠ JSValue.bool false) ∧
    (JSValue.arr [JSValue.str "isRequired"] ≠ JSValue.arr []) := by
  have h := claim_C10_validate_specifics env0 (.str "")
    [("isRequired", .bool true)] (.arr [.str "isRequired"]) rfl
  exact ⟨h.1, h.2.1⟩

/-- A successful mantissa parse always exists after a leading digit. -/
theorem parseMantissa_zero (cs : List Char) :
    ∃ q r, parseMantissa ('0' :: cs) = some (q, r) := by
  have hint : List.takeWhile Char.isDigit ('0' :: cs) =
      '0' :: List.takeWhile Char.isDigit cs := by
    simp [List.takeWhile_cons]
  simp only [parseMantissa, hint]
  split
  · simp
  · simp

/-- A string starting with the digit `0` never starts with `Infinity`. -/
theorem take8_zero_ne_Infinity (cs : List Char) :
    ('0' :: cs).take 8 ≠ "Infinity".toList := by
  intro hc
  have h1 : ('0' :: cs).take 8 = '0' :: cs.take 7 := rfl
  have h2 : "Infinity".toList = 'I' :: "nfinity".toList := rfl
  rw [h1, h2] at hc
  injection hc with hhd _
  exact absurd hhd (by decide)

/-- The unsigned parser succeeds with a finite value on inputs starting with
the digit `0`. -/
theorem parseUnsigned_zero (cs : List Char) :
    ∃ q r, parseUnsigned ('0' :: cs) = some (JSNum.fin q, r) := by
  obtain ⟨q0, r0, hm⟩ := parseMantissa_zero cs
  unfold parseUnsigned
  rw [if_neg (take8_zero_ne_Infinity cs), hm]
  exact ⟨_, _, rfl⟩

/-- The signed parser succeeds with a finite value on inputs starting with
the digit `0`. -/
theorem parseDecLead_zero (cs : List Char) :
    ∃ q r, parseDecLead ('0' :: cs) = some (JSNum.fin q, r) := by
  obtain ⟨q0, r0, hu⟩ := parseUnsigned_zero cs
  have hsign : parseSign ('0' :: cs) = (false, '0' :: cs) := rfl
  unfold parseDecLead
  rw [hsign]
  simp only [hu]
  exact ⟨_, _, rfl⟩

/-- The unsigned parser never yields NaN. -/
theorem parseUnsigned_not_nan (cs : List Char) (n : JSNum) (r : List Char)
    (h : parseUnsigned cs = some (n, r)) : n.isNaN = false := by
  unfold parseUnsigned at h
  split at h
  · simp only [Option.some.injEq, Prod.mk.injEq] at h
    rw [← h.1]; rfl
  · split at h
    · exact absurd h (by simp)
    · simp only [Option.some.injEq, Prod.mk.injEq] at h
      rw [← h.1]; rfl

/-- The signed parser never yields NaN. -/
theorem parseDecLead_not_nan (cs : List Char) (n : JSNum) (r : List Char)
    (h : parseDecLead cs = some (n, r)) : n.isNaN = false := by
  simp only [parseDecLead] at h
  cases hu : parseUnsigned (parseSign cs).2 with
  | none => rw [hu] at h; exact absurd h (by simp)
  | some p =>
      obtain ⟨m, rest⟩ := p
      rw [hu] at h
      simp only [Option.some.injEq, Prod.mk.injEq] at h
      have hm := parseUnsigned_not_nan _ _ _ hu
      rw [← h.1]
      cases hps : (parseSign cs).1 with
      | false => simpa using hm
      | true =>
          rw [if_pos rfl]
          cases m with
          | nan => simp [JSNum.isNaN] at hm
          | posInf => rfl
          | negInf => rfl
          | fin q => rfl

/-- A complete-literal parse implies the leading-literal parse succeeds. -/
theorem fullNumParse_parseDecLead (t : List Char) (n : JSNum)
    (h : fullNumParse t = some n) :
    ∃ m r, parseDecLead t = some (m, r) := by
  unfold fullNumParse at h
  split at h
  · rename_i c0 x rest
    split at h
    · -- hex marker branch
      rename_i hx
      split at h
      · obtain ⟨q, r, hd⟩ := parseDecLead_zero (x :: rest)
        exact ⟨_, _, hd⟩
      · exact absurd h (by simp)
    · -- leading zero but no hex marker: complete decimal literal
      split at h
      · rename_i m hm
        exact ⟨_, _, hm⟩
      · exact absurd h (by simp)
  · split at h
    · rename_i m hm
      exact ⟨_, _, hm⟩
    · exact absurd h (by simp)

/-- Core equivalence on strings: the `parseFloat`/`isFinite` pair of the
source computes exactly "the string is a complete numeric literal with a
finite value". -/
theorem isNumeric_string_core (u : String) :
    (!(parseFloatStr u).isNaN && (toNumberStr u).isFinite) =
      finiteFullParse u := by
  unfold parseFloatStr toNumberStr finiteFullParse
  by_cases h0 : trimWs u.toList = []
  · rw [h0]
    decide
  · rw [if_neg h0]
    cases hfp : fullNumParse (trimWs u.toList) with
    | none => simp [JSNum.isFinite]
    | some n =>
        simp only [Option.getD_some]
        cases n with
        | nan => simp [JSNum.isFinite]
        | posInf => simp [JSNum.isFinite]
        | negInf => simp [JSNum.isFinite]
        | fin q =>
            obtain ⟨m, r, hd⟩ := fullNumParse_parseDecLead _ _ hfp
            have hnan := parseDecLead_not_nan _ _ _ hd
            have hd2 : parseDecLead (trimWs u.data) = some (m, r) := hd
            simp [hd2, hnan, JSNum.isFinite]

/-- Claim C8: `isNumeric` returns `true` exactly when the input parses to a
finite number, on every value of the model; with the three particular
instances of the spec. -/
theorem claim_C8_isNumeric :
    (∀ v : JSValue, isNumeric v = parsesToFiniteNumber v) ∧
    isNumeric (.str "42") = true ∧
    isNumeric (.str "abc") = false ∧
    isNumeric (.str "Infinity") = false := by
  refine ⟨?_, rfl, rfl, rfl⟩
  intro v
  cases v with
  | undefined => rfl
  | null => rfl
  | bool b => cases b <;> rfl
  | num n => cases n <;> rfl
  | obj fields => exact isNumeric_string_core "[object Object]"
  | str s => exact isNumeric_string_core s
  | arr xs => exact isNumeric_string_core (jsToString (.arr xs))

end ValidateJs
